import Mathlib

/-!
# A shallow embedding of `libscm` (src/libscm/libscm.py)

`libscm` is a small Scheme interpreter: an environment chain (`Env`, a dict
with an `outer` pointer), an evaluator (`eval`), a reader
(`tokenize` / `read_expr` / `atom` / `parse`) and a printer (`to_string`).

The embedding below models:
* Scheme values and expressions by one inductive type `SVal`, mirroring the
  dynamic typing of the host: the reader produces ints, floats, symbols and
  lists, and evaluation additionally produces closures, built-in procedures,
  booleans and the host `None`.
* Python floats by their representative token string (the printed form);
  exact binary floating-point arithmetic is out of scope, and no claim here
  depends on it: floats only flow through the reader, the printer and
  truthiness.
* the mutable environment chain by a store of frames addressed by `Nat`
  indices; `Env.__init__`, `Env.find`, `env[var] = v` become pure store
  operations.
* Python exceptions (`UnboundError`, `IndexError`, `TypeError`,
  `ValueError`, `KeyError`, `UnboundLocalError`, `SyntaxError`) by an
  `Except Err` result.
* possible divergence (the `while True` loop in `Env.find`, and general
  recursion in `eval`) by a fuel parameter: a result of `none` means the
  computation did not finish within the given fuel, and a theorem of the
  form `∀ fuel, … = none` states divergence.
-/

/-- The exception kinds the interpreter can raise, one constructor per host
exception class that the code can actually hit. The last two model the two
`SyntaxError` messages of `read_expr`. -/
inductive Err
  | unbound (var : String)
  | indexError
  | typeError
  | valueError
  | keyError
  | unboundLocal
  | syntaxEOF
  | unexpectedClose
deriving DecidableEq, Repr

/-- Scheme values / expressions. `float tok` carries the float's printed
token (see the file header); `closure` carries the parameter names, the body
and the address of the defining environment, exactly the three pieces
captured by `lambda *args: eval(exp, Env(vars, args, env))`; `builtin`
names one of the procedures installed by `add_globals`; `none` is the host
`None` returned by `set!` and `define`. -/
inductive SVal
  | int (n : Int)
  | float (tok : String)
  | sym (s : String)
  | bool (b : Bool)
  | none
  | list (xs : List SVal)
  | closure (params : List String) (body : SVal) (env : Nat)
  | builtin (name : String)
deriving Repr

/-- Association-list lookup, modelling `var in self` / `self[var]` on the
`Env` dict. -/
def lookupVar : List (String × SVal) → String → Option SVal
  | [], _ => Option.none
  | (k, v) :: rest, x => if k = x then some v else lookupVar rest x

/-- Dict update `d[k] = v`: replace the first binding of `k`, or append a new
one (Python dicts keep insertion order and update in place). -/
def setVar : List (String × SVal) → String → SVal → List (String × SVal)
  | [], k, v => [(k, v)]
  | (k', v') :: rest, k, v =>
    if k' = k then (k, v) :: rest else (k', v') :: setVar rest k v

/-- Building a dict from a pair list, modelling `self.update(list(zip(parms,
args)))`: later pairs overwrite earlier ones. -/
def bindPairs (ps : List (String × SVal)) : List (String × SVal) :=
  ps.foldl (fun acc kv => setVar acc kv.1 kv.2) []

/-- One environment frame: its own dict of bindings plus the `outer`
pointer (`Option.none` models Python `None`). -/
structure Frame where
  bindings : List (String × SVal)
  outer : Option Nat
deriving Repr

/-- The heap of environment frames; a frame's address is its index. -/
structure Store where
  frames : List Frame
deriving Repr

/-- Frame fetch; addresses in reachable stores are always valid, the default
keeps the function total. -/
def Store.frameAt (st : Store) (a : Nat) : Frame :=
  st.frames.getD a ⟨[], Option.none⟩

/-- `env.find(var)[var] = v` / `env[var] = v` at frame address `a`. -/
def Store.setAt (st : Store) (a : Nat) (v : String) (val : SVal) : Store :=
  ⟨st.frames.set a ⟨setVar (st.frameAt a).bindings v val, (st.frameAt a).outer⟩⟩

/-- `Env.find`, translated line by line from the source:

    while True:
        if var in self:
            return self
        else:
            if self.outer:
                self.outer.find(var)       # result discarded
            else:
                ... raise UnboundError(var)   # err_handler is None

Note three points of the source kept faithfully: the result of
`self.outer.find(var)` is discarded and the `while True` loop re-runs on the
same frame; `if self.outer:` is Python dict truthiness, so an *empty* outer
frame counts as absent; the library installs no `err_handler` (the
`set_err_handler` call in the module is commented out), so the else branch
raises `UnboundError`. Fuel counts loop iterations / nested calls; `none`
means the fuel ran out. -/
def findF (st : Store) : Nat → Nat → String → Option (Except Err Nat)
  | 0, _, _ => Option.none
  | f + 1, a, v =>
    if (lookupVar (st.frameAt a).bindings v).isSome then some (.ok a)
    else
      match (st.frameAt a).outer with
      | some b =>
        if (st.frameAt b).bindings.isEmpty then some (.error (.unbound v))
        else
          match findF st f b v with
          | Option.none => Option.none
          | some (.error e) => some (.error e)
          | some (.ok _) => findF st f a v
      | Option.none => some (.error (.unbound v))

/-- Python truthiness `bool(x)` of the values that can appear as the `if`
test: `False`, `0`, zero floats, `''`, `[]` and `None` are falsy, everything
else (functions included) is truthy. -/
def floatTokIsZero (tok : String) : Bool :=
  let l := match tok.data with
    | c :: cs => if c = '+' ∨ c = '-' then cs else c :: cs
    | [] => []
  let mant := l.takeWhile (fun c => ¬(c = 'e' ∨ c = 'E'))
  ¬mant.isEmpty ∧ mant.all (fun c => c = '0' ∨ c = '.')

def truthy : SVal → Bool
  | .int n => n ≠ 0
  | .float tok => ¬floatTokIsZero tok
  | .sym s => ¬s.isEmpty
  | .bool b => b
  | .none => false
  | .list xs => ¬xs.isEmpty
  | .closure _ _ _ => true
  | .builtin _ => true

/-- The built-in procedures from `add_globals` that the claims exercise.
`car` is `lambda x: x[0]` and `cdr` is `lambda x: x[1:]`: indexing an empty
sequence raises `IndexError`, while slicing never does (`[][1:]` is `[]`);
both also work on symbols, which are host strings. `list` is
`lambda *x: list(x)`, `<` is `operator.lt`, `null?` is `lambda x: x == []`.
Applying a built-in to operands outside its domain (or the wrong number of
them) is a host `TypeError`. -/
def applyBuiltin : String → List SVal → Except Err SVal
  | "car", [.list (a :: _)] => .ok a
  | "car", [.list []] => .error .indexError
  | "car", [.sym s] =>
    match s.data with
    | c :: _ => .ok (.sym (String.mk [c]))
    | [] => .error .indexError
  | "car", _ => .error .typeError
  | "cdr", [.list l] => .ok (.list (l.drop 1))
  | "cdr", [.sym s] => .ok (.sym (String.mk (s.data.drop 1)))
  | "cdr", _ => .error .typeError
  | "list", args => .ok (.list args)
  | "<", [.int a, .int b] => .ok (.bool (decide (a < b)))
  | "<", _ => .error .typeError
  | "null?", [.list []] => .ok (.bool true)
  | "null?", [_] => .ok (.bool false)
  | "null?", _ => .error .typeError
  | _, _ => .error .typeError

/-- Left-to-right evaluation of a list of expressions threading the store,
modelling the comprehension `[eval(exp, env) for exp in x]`; the evaluator
itself is passed in as `ev`. -/
def evalSeq (ev : SVal → Store → Option (Except Err (SVal × Store))) :
    List SVal → Store → Option (Except Err (List SVal × Store))
  | [], st => some (.ok ([], st))
  | e :: es, st =>
    match ev e st with
    | Option.none => Option.none
    | some (.error err) => some (.error err)
    | some (.ok (v, st')) =>
      match evalSeq ev es st' with
      | Option.none => Option.none
      | some (.error err) => some (.error err)
      | some (.ok (vs, st'')) => some (.ok (v :: vs, st''))

/-- Extracting the parameter-name list of a `lambda` form. The source never
validates the parameter list; a non-symbol there only misbehaves later, and
the model reports it eagerly as a `TypeError` (no claim exercises this). -/
def symNames : List SVal → Option (List String)
  | [] => some []
  | .sym s :: rest => (symNames rest).map (s :: ·)
  | _ => Option.none

/-- `eval(x, env)`, translated branch by branch in source order: symbol →
`env.find(x)[x]`; non-list → the constant itself; then dispatch on `x[0]`
over `quote`, `if`, `set!`, `define`, `lambda`, `begin`, and otherwise
application. Tuple unpacking of a special form with the wrong operand count
is a host `ValueError`; `eval` of `()` hits `x[0]` and raises `IndexError`;
`(begin)` leaves the local `val` unassigned (`UnboundLocalError`). In
`set!` and `define` the right-hand side is evaluated before the target is
resolved, as in a Python subscript assignment. Application evaluates every
element left to right, pops the first as the procedure, and calls it: a
closure call builds a fresh frame whose dict is `zip(parms, args)` — the
zip truncates to the shorter list, so no arity check happens — with the
closure's captured environment as `outer`. Fuel bounds the recursion depth;
`none` means it ran out. -/
def evalF : Nat → SVal → Nat → Store → Option (Except Err (SVal × Store))
  | 0, _, _, _ => Option.none
  | f + 1, x, env, st =>
    match x with
    | .sym s =>
      match findF st f env s with
      | Option.none => Option.none
      | some (.error e) => some (.error e)
      | some (.ok a) =>
        match lookupVar (st.frameAt a).bindings s with
        | some v => some (.ok (v, st))
        | Option.none => some (.error .keyError)
    | .list [] => some (.error .indexError)
    | .list (.sym "quote" :: rest) =>
      match rest with
      | [exp] => some (.ok (exp, st))
      | _ => some (.error .valueError)
    | .list (.sym "if" :: rest) =>
      match rest with
      | [t, c, a] =>
        match evalF f t env st with
        | Option.none => Option.none
        | some (.error e) => some (.error e)
        | some (.ok (v, st')) =>
          if truthy v then evalF f c env st' else evalF f a env st'
      | _ => some (.error .valueError)
    | .list (.sym "set!" :: rest) =>
      match rest with
      | [.sym v, exp] =>
        match evalF f exp env st with
        | Option.none => Option.none
        | some (.error e) => some (.error e)
        | some (.ok (val, st')) =>
          match findF st' f env v with
          | Option.none => Option.none
          | some (.error e) => some (.error e)
          | some (.ok a) => some (.ok (.none, st'.setAt a v val))
      | [_, _] => some (.error .typeError)
      | _ => some (.error .valueError)
    | .list (.sym "define" :: rest) =>
      match rest with
      | [.sym v, exp] =>
        match evalF f exp env st with
        | Option.none => Option.none
        | some (.error e) => some (.error e)
        | some (.ok (val, st')) => some (.ok (.none, st'.setAt env v val))
      | [_, _] => some (.error .typeError)
      | _ => some (.error .valueError)
    | .list (.sym "lambda" :: rest) =>
      match rest with
      | [.list ps, body] =>
        match symNames ps with
        | some names => some (.ok (.closure names body env, st))
        | Option.none => some (.error .typeError)
      | [_, _] => some (.error .typeError)
      | _ => some (.error .valueError)
    | .list (.sym "begin" :: rest) =>
      match evalSeq (fun e s => evalF f e env s) rest st with
      | Option.none => Option.none
      | some (.error e) => some (.error e)
      | some (.ok (vs, st')) =>
        match vs.getLast? with
        | some v => some (.ok (v, st'))
        | Option.none => some (.error .unboundLocal)
    | .list xs =>
      match evalSeq (fun e s => evalF f e env s) xs st with
      | Option.none => Option.none
      | some (.error e) => some (.error e)
      | some (.ok (vs, st')) =>
        match vs with
        | [] => some (.error .indexError)
        | proc :: args =>
          match proc with
          | .closure params body clEnv =>
            evalF f body st'.frames.length
              ⟨st'.frames ++ [⟨bindPairs (List.zip params args), some clEnv⟩]⟩
          | .builtin name =>
            match applyBuiltin name args with
            | .ok v => some (.ok (v, st'))
            | .error e => some (.error e)
          | _ => some (.error .typeError)
    | _ => some (.ok (x, st))

/-- The bindings `add_globals` installs, restricted to the procedures the
claims exercise (the math-module names and the remaining operators play no
role in any claim). -/
def globalBindings : List (String × SVal) :=
  [("car", .builtin "car"), ("cdr", .builtin "cdr"),
   ("list", .builtin "list"), ("<", .builtin "<"),
   ("null?", .builtin "null?")]

/-- The initial store: one global frame with no outer. -/
def st0 : Store := ⟨[⟨globalBindings, Option.none⟩]⟩

example : evalF 3 (.int 5) 0 st0 = some (.ok (.int 5, st0)) := rfl
example : evalF 5 (.list [.sym "quote", .sym "a"]) 0 st0
    = some (.ok (.sym "a", st0)) := rfl
example : evalF 5 (.sym "car") 0 st0 = some (.ok (.builtin "car", st0)) := rfl

/-! ## The reader and the printer -/

/-- One decimal digit as a character, used to model Python `str` on ints. -/
def digitChar : Nat → Char
  | 0 => '0' | 1 => '1' | 2 => '2' | 3 => '3' | 4 => '4'
  | 5 => '5' | 6 => '6' | 7 => '7' | 8 => '8' | 9 => '9'
  | _ => '?'

def digitVal (c : Char) : Nat := c.toNat - 48

/-- Decimal digits of `n`, most significant first; `fuel`-bounded so that the
definition is structural (fuel `n + 1` always suffices, see
`natDigitsF_eval`). -/
def natDigitsF : Nat → Nat → List Char
  | 0, _ => []
  | f + 1, n =>
    if n < 10 then [digitChar n]
    else natDigitsF f (n / 10) ++ [digitChar (n % 10)]

def natDigits (n : Nat) : List Char := natDigitsF (n + 1) n

/-- Python `str` on an int: plain digits, or `-` followed by digits. -/
def intRepr : Int → String
  | .ofNat m => String.mk (natDigits m)
  | .negSucc m => String.mk ('-' :: natDigits (m + 1))

def digitsVal (l : List Char) : Nat :=
  l.foldl (fun a c => 10 * a + digitVal c) 0

/-- Dropping one leading `+` or `-` sign. -/
def stripSignL : List Char → List Char
  | [] => []
  | c :: cs => if c = '+' ∨ c = '-' then cs else c :: cs

def isDigitsL (l : List Char) : Bool := ¬l.isEmpty && l.all Char.isDigit

/-- Whether `int(token)` succeeds: an optional sign then a nonempty run of
digits. (The model restricts Python's grammar to ASCII digits with no
underscores and no surrounding whitespace; tokens produced by `tokenize`
contain no whitespace anyway.) -/
def isIntTok (s : String) : Bool := isDigitsL (stripSignL s.data)

/-- The value `int(token)` returns when it succeeds. -/
def intValTok (s : String) : Int :=
  match s.data with
  | [] => 0
  | c :: cs =>
    if c = '-' then -(digitsVal cs : Int)
    else if c = '+' then (digitsVal cs : Int)
    else (digitsVal (c :: cs) : Int)

/-- The mantissa part of a float literal: digits with at most one dot and at
least one digit. -/
def mantOK (l : List Char) : Bool :=
  let a := l.takeWhile (· ≠ '.')
  match l.dropWhile (· ≠ '.') with
  | [] => isDigitsL a
  | _ :: b => (isDigitsL a && (b.isEmpty || isDigitsL b)) ||
              (a.isEmpty && isDigitsL b)

/-- Whether `float(token)` succeeds: an optional sign, then either a decimal
mantissa with optional `e`/`E` exponent, or (case-insensitively) `inf`,
`infinity` or `nan`. Same ASCII restriction as `isIntTok`. -/
def isFloatTok (s : String) : Bool :=
  let l := stripSignL s.data
  let mant := l.takeWhile (fun c => ¬(c = 'e' ∨ c = 'E'))
  let body :=
    match l.dropWhile (fun c => ¬(c = 'e' ∨ c = 'E')) with
    | [] => mantOK mant
    | _ :: ex => mantOK mant && isDigitsL (stripSignL ex)
  body || decide (l.map Char.toLower = "inf".data) ||
    decide (l.map Char.toLower = "infinity".data) ||
    decide (l.map Char.toLower = "nan".data)

/-- `atom(token)`: try `int`, then `float`, else the token is a symbol. The
try/except ladder in the source catches every `ValueError`, so the function
is total. A float value is modelled by its token (file header). -/
def atomF (t : String) : SVal :=
  if isIntTok t then .int (intValTok t)
  else if isFloatTok t then .float t
  else .sym t

/-- A character that does not split tokens: not a paren, not whitespace. -/
def notDelim (c : Char) : Bool := ¬(c = '(' ∨ c = ')' ∨ c.isWhitespace)

/-- `tokenize`: the source pads parens with spaces and calls `split()`, so
parens become standalone tokens and whitespace separates the rest. The model
scans characters with an accumulator `acc` holding the current token. -/
def tokenizeChars : List Char → List Char → List String
  | [], acc => if acc.isEmpty then [] else [String.mk acc]
  | c :: cs, acc =>
    if c = '(' then
      (if acc.isEmpty then [] else [String.mk acc]) ++ "(" :: tokenizeChars cs []
    else if c = ')' then
      (if acc.isEmpty then [] else [String.mk acc]) ++ ")" :: tokenizeChars cs []
    else if c.isWhitespace then
      (if acc.isEmpty then [] else [String.mk acc]) ++ tokenizeChars cs []
    else tokenizeChars cs (acc ++ [c])

def tokenize (s : String) : List String := tokenizeChars s.data []

mutual
/-- `read_expr(tokens)`, fuel-bounded (each call consumes one fuel; the
wrapper `readExpr` supplies enough, see `readF_isSome`). On an empty token
list the source raises `SyntaxError('unexpected EOF while reading')`; a `(`
hands over to the list loop; a bare `)` raises
`SyntaxError('unexpected )')`; anything else is an atom. A successful read
returns the expression and the remaining tokens (the source mutates the
token list in place). -/
def readExprF : Nat → List String → Option (Except Err (SVal × List String))
  | 0, _ => Option.none
  | _ + 1, [] => some (.error .syntaxEOF)
  | f + 1, t :: ts =>
    if t = "(" then
      match readListF f ts with
      | Option.none => Option.none
      | some (.error e) => some (.error e)
      | some (.ok (es, rest)) => some (.ok (.list es, rest))
    else if t = ")" then some (.error .unexpectedClose)
    else some (.ok (atomF t, ts))

/-- The `while tokens[0] != ')'` loop of `read_expr`: peeking at an empty
token list raises a host `IndexError` (not a `SyntaxError`); a `)` closes
the list; otherwise one element is read and the loop continues. -/
def readListF : Nat → List String → Option (Except Err (List SVal × List String))
  | 0, _ => Option.none
  | _ + 1, [] => some (.error .indexError)
  | f + 1, t :: ts =>
    if t = ")" then some (.ok ([], ts))
    else
      match readExprF f (t :: ts) with
      | Option.none => Option.none
      | some (.error e) => some (.error e)
      | some (.ok (e, rest)) =>
        match readListF f rest with
        | Option.none => Option.none
        | some (.error e) => some (.error e)
        | some (.ok (es, rest')) => some (.ok (e :: es, rest'))
end

/-- `read_expr` as a total function: fuel `2·length + 1` always suffices
(`readF_isSome`), so the `none` branch is dead. -/
def readExpr (ts : List String) : Except Err (SVal × List String) :=
  match readExprF (2 * ts.length + 1) ts with
  | some r => r
  | Option.none => .error .syntaxEOF

/-- `parse(s) = read_expr(tokenize(s))`; leftover tokens are dropped, as in
the source. -/
def parse (s : String) : Except Err SVal :=
  match readExpr (tokenize s) with
  | .ok (e, _) => .ok e
  | .error e => .error e

mutual
/-- `to_string(exp)`: a list prints as `(` + the space-joined printed
elements + `)`; anything else prints as Python `str` of the value. For the
value kinds irrelevant to printing claims: booleans print `True`/`False`,
`None` prints `None`, and procedure objects print as an opaque
`<function …>` placeholder. -/
def toStr : SVal → String
  | .int n => intRepr n
  | .float tok => tok
  | .sym s => s
  | .bool b => if b then "True" else "False"
  | .none => "None"
  | .closure _ _ _ => "<function>"
  | .builtin name => "<function " ++ name ++ ">"
  | .list es => "(" ++ toStrList es ++ ")"

/-- `' '.join(map(to_string, exp))`. -/
def toStrList : List SVal → String
  | [] => ""
  | [e] => toStr e
  | e :: es => toStr e ++ " " ++ toStrList es
end

example : tokenize "(car (quote (1 2)))"
    = ["(", "car", "(", "quote", "(", "1", "2", ")", ")", ")"] := by decide
example : parse "(1 2.5 foo)"
    = .ok (.list [.int 1, .float "2.5", .sym "foo"]) := rfl
example : toStr (.list [.int 1, .list [.int (-2)], .sym "x"]) = "(1 (-2) x)" := rfl
example : readExpr ["("] = .error .indexError := rfl
example : atomF "inf" = .float "inf" := rfl
example : atomF "nan" = .float "nan" := rfl
example : atomF "" = .sym "" := rfl

/-! ## Reader-producible trees and their token lists -/

/-- A token the tokenizer can emit as an atom: nonempty, no parens, no
whitespace. -/
def cleanTok (s : String) : Bool := ¬s.isEmpty && s.data.all notDelim

mutual
/-- A tree the reader can produce (up to the float-token representation):
ints are arbitrary; a float atom carries a well-formed float token that is
not an int token (so `atom` classifies it as a float); a symbol is a clean
token that parses as neither; lists are trees of the same shape. Closures,
booleans, `None` and built-ins are evaluator-only values, never
reader-produced. -/
def wfB : SVal → Bool
  | .int _ => true
  | .float t => cleanTok t && isFloatTok t && !isIntTok t
  | .sym s => cleanTok s && !isIntTok s && !isFloatTok s
  | .list es => wfListB es
  | _ => false

def wfListB : List SVal → Bool
  | [] => true
  | e :: es => wfB e && wfListB es
end

mutual
/-- The token list `tokenize (toStr e)` produces for a well-formed tree
(proved as `tokenize_toStr`). -/
def toks : SVal → List String
  | .list es => "(" :: (toksList es ++ [")"])
  | e => [toStr e]

def toksList : List SVal → List String
  | [] => []
  | e :: es => toks e ++ toksList es
end

/-! ## Concrete scenarios used by the claims -/

/-- A store with a single, empty global frame: the outer level before any
`define` has run. -/
def emptyGlobal : Store := ⟨[⟨[], Option.none⟩]⟩

/-- An environment chain whose outer frame (address 0) binds `x ↦ 1` and
whose inner frame (address 1) does not: the configuration of a variable
reference from inside a lambda body to a variable defined outside. It is
also exactly the store reached inside the lambda call of `c2prog`. -/
def chainStore : Store := ⟨[⟨[("x", .int 1)], Option.none⟩, ⟨[], some 0⟩]⟩

/-- `(begin (define x 1) ((lambda () (set! x 2))) x)`. -/
def c2prog : SVal :=
  .list [.sym "begin",
    .list [.sym "define", .sym "x", .int 1],
    .list [.list [.sym "lambda", .list [],
      .list [.sym "set!", .sym "x", .int 2]]],
    .sym "x"]

/-- `(begin (define x 1) ((lambda () (define x 2))) x)`. -/
def c3prog : SVal :=
  .list [.sym "begin",
    .list [.sym "define", .sym "x", .int 1],
    .list [.list [.sym "lambda", .list [],
      .list [.sym "define", .sym "x", .int 2]]],
    .sym "x"]

/-- `((lambda (x) x) 1 2)`: a one-parameter closure applied to two
arguments. -/
def c4progExtra : SVal :=
  .list [.list [.sym "lambda", .list [.sym "x"], .sym "x"], .int 1, .int 2]

/-- `((lambda (x y) 7) 1)`: a two-parameter closure applied to one
argument. -/
def c4progMissing : SVal :=
  .list [.list [.sym "lambda", .list [.sym "x", .sym "y"], .int 7], .int 1]

/-- `(if 1 10 (undefined-symbol))`. -/
def c7prog : SVal :=
  .list [.sym "if", .int 1, .int 10, .list [.sym "undefined-symbol"]]

example : evalF 20 c3prog 0 emptyGlobal
    = some (.ok (.int 1,
        ⟨[⟨[("x", .int 1)], Option.none⟩,
          ⟨[("x", .int 2)], some 0⟩]⟩)) := rfl
example : evalF 10 c4progExtra 0 st0
    = some (.ok (.int 1, ⟨st0.frames ++ [⟨[("x", .int 1)], some 0⟩]⟩)) := rfl
example : evalF 10 c4progMissing 0 st0
    = some (.ok (.int 7, ⟨st0.frames ++ [⟨[("x", .int 1)], some 0⟩]⟩)) := rfl
example : evalF 10 c7prog 0 st0 = some (.ok (.int 10, st0)) := rfl
example : evalF 10 (.list [.sym "if", .int 0, .int 10, .int 20]) 0 st0
    = some (.ok (.int 20, st0)) := rfl
example : evalF 10
    (.list [.sym "cdr", .list [.sym "quote", .list []]]) 0 st0
    = some (.ok (.list [], st0)) := rfl
example : evalF 10
    (.list [.sym "car", .list [.sym "quote", .list []]]) 0 st0
    = some (.error .indexError) := rfl
example : findF chainStore 5 1 "x" = Option.none := rfl
example : findF chainStore 1 0 "x" = some (.ok 0) := rfl

/-! ## Theorems -/

/-- The divergence of `Env.find` on a variable bound only in an outer
frame: the recursive call `self.outer.find(var)` finds the frame but its
result is discarded, and the `while True` loop repeats forever. No amount
of fuel produces a result. -/
theorem findF_chain_diverges : ∀ fuel, findF chainStore fuel 1 "x" = Option.none := by
  intro fuel
  induction fuel with
  | zero => rfl
  | succ f ih =>
    cases f with
    | zero => rfl
    | succ g =>
      have hin : findF chainStore (g + 1) 0 "x" = some (.ok 0) := rfl
      simp only [findF, hin]
      simpa using ih
/-- Inside the lambda call of `c2prog`, evaluating `(set! x 2)` evaluates
the right-hand side and then hangs in `Env.find` looking for the owning
frame of `x`. -/
theorem evalF_set_diverges :
    ∀ f, evalF f (.list [.sym "set!", .sym "x", .int 2]) 1 chainStore
      = Option.none := by
  intro f
  match f with
  | 0 => rfl
  | 1 => rfl
  | g + 2 =>
    have hexp : evalF (g + 1) (.int 2) 1 chainStore
        = some (.ok (.int 2, chainStore)) := rfl
    simp only [evalF, hexp, findF_chain_diverges]

/-- The whole mutation chain diverges: `(begin (define x 1)
((lambda () (set! x 2))) x)` never returns, at any fuel. -/
theorem evalF_c2prog_diverges :
    ∀ f, evalF f c2prog 0 emptyGlobal = Option.none := by
  intro f
  match f with
  | 0 => rfl
  | 1 => rfl
  | 2 => rfl
  | 3 => rfl
  | k + 4 =>
    have hf : findF ⟨[⟨[("x", SVal.int 1)], Option.none⟩, ⟨[], some 0⟩]⟩
        (k + 1) 1 "x" = Option.none := findF_chain_diverges (k + 1)
    simp [c2prog, evalF, evalSeq, emptyGlobal, Store.setAt, Store.frameAt,
      symNames, lookupVar, setVar, bindPairs, hf]
/-- C1: the spec says `lookup(var)` returns the bound value of the
innermost frame binding `var`, walking outward — but when `var` is bound
only in a strictly outer frame, `Env.find` discards the result of
`self.outer.find(var)` and its `while True` loop never terminates. From
the inner frame of `chainStore` the search for `x` exhausts every fuel,
even though the outer frame binds `x` (the last two conjuncts: a lookup
started at the binding frame itself does succeed, and `x ↦ 1` is there). -/
theorem C1_lookup_outer_diverges :
    (∀ fuel, findF chainStore fuel 1 "x" = Option.none) ∧
    findF chainStore 1 0 "x" = some (.ok 0) ∧
    lookupVar (chainStore.frameAt 0).bindings "x" = some (.int 1) :=
  ⟨findF_chain_diverges, rfl, rfl⟩

/-- C2: the spec says `(define x 1)` followed by `(set! x 2)` inside a
nested lambda mutates the outer `x` so that reading `x` yields `2` — but
the chain walk in `Env.find` never terminates when the owning frame is a
strict outer, so the whole program diverges at every fuel (first
conjunct), as does the `(set! x 2)` step itself in the inner
environment (second conjunct). -/
theorem C2_set_outer_diverges :
    (∀ fuel, evalF fuel c2prog 0 emptyGlobal = Option.none) ∧
    (∀ fuel, evalF fuel (.list [.sym "set!", .sym "x", .int 2]) 1 chainStore
        = Option.none) :=
  ⟨evalF_c2prog_diverges, evalF_set_diverges⟩

/-- C3: `(define var exp)` binds in the innermost frame only: after the
right-hand side is evaluated, the binding step writes frame `env` and
leaves every other frame exactly as the right-hand side left it; and in
the concrete scoping scenario `(begin (define x 1)
((lambda () (define x 2))) x)` the final read of `x` yields `1`, the call
frame holding its own local `x ↦ 2` while the outer frame still holds
`x ↦ 1`. -/
theorem C3_define_innermost :
    (∀ f v exp env st val st',
        evalF f exp env st = some (.ok (val, st')) →
        evalF (f + 1) (.list [.sym "define", .sym v, exp]) env st
          = some (.ok (.none, st'.setAt env v val))) ∧
    (∀ (st : Store) env v val a, a ≠ env →
        (st.setAt env v val).frameAt a = st.frameAt a) ∧
    evalF 20 c3prog 0 emptyGlobal
      = some (.ok (.int 1,
          ⟨[⟨[("x", .int 1)], Option.none⟩, ⟨[("x", .int 2)], some 0⟩]⟩)) := by
  refine ⟨?_, ?_, rfl⟩
  · intro f v exp env st val st' h
    simp only [evalF, h]
  · intro st env v val a hne
    simp [Store.setAt, Store.frameAt, List.getD, List.getElem?_set_ne (Ne.symm hne)]

/-- Witness for C3: a concrete `define` step and a concrete locality
instance. -/
theorem C3_define_innermost_witness :
    evalF 2 (.list [.sym "define", .sym "y", .int 5]) 0 emptyGlobal
      = some (.ok (.none, emptyGlobal.setAt 0 "y" (.int 5))) ∧
    (chainStore.setAt 0 "x" (.int 2)).frameAt 1 = chainStore.frameAt 1 :=
  ⟨C3_define_innermost.1 1 "y" (.int 5) 0 emptyGlobal (.int 5) emptyGlobal rfl,
   C3_define_innermost.2.1 chainStore 0 "x" (.int 2) 1 (by decide)⟩
theorem lookupVar_setVar_self (l : List (String × SVal)) (k : String) (v : SVal) :
    lookupVar (setVar l k v) k = some v := by
  induction l with
  | nil => simp [setVar, lookupVar]
  | cons kv rest ih =>
    by_cases h : kv.1 = k <;> simp [setVar, lookupVar, h, ih]

theorem lookupVar_setVar_ne (l : List (String × SVal)) (k : String) (v : SVal)
    (k' : String) (h : k' ≠ k) :
    lookupVar (setVar l k v) k' = lookupVar l k' := by
  induction l with
  | nil => simp [setVar, lookupVar, h, Ne.symm h]
  | cons kv rest ih =>
    by_cases hk : kv.1 = k
    · simp [setVar, lookupVar, hk, Ne.symm h, h]
    · simp [setVar, lookupVar, hk, ih]

theorem lookupVar_foldl_notMem :
    ∀ (ps : List (String × SVal)) (acc : List (String × SVal)) (x : String),
      x ∉ ps.map Prod.fst →
      lookupVar (ps.foldl (fun a kv => setVar a kv.1 kv.2) acc) x
        = lookupVar acc x := by
  intro ps
  induction ps with
  | nil => intro acc x _; rfl
  | cons kv rest ih =>
    intro acc x hx
    simp only [List.map_cons, List.mem_cons] at hx
    push_neg at hx
    simp only [List.foldl_cons]
    rw [ih _ x hx.2, lookupVar_setVar_ne _ _ _ _ hx.1]

theorem lookupVar_foldl_mem :
    ∀ (ps : List (String × SVal)) (acc : List (String × SVal)) (x : String)
      (v : SVal), (ps.map Prod.fst).Nodup → (x, v) ∈ ps →
      lookupVar (ps.foldl (fun a kv => setVar a kv.1 kv.2) acc) x = some v := by
  intro ps
  induction ps with
  | nil => intro acc x v _ hmem; cases hmem
  | cons kv rest ih =>
    intro acc x v hnd hmem
    simp only [List.map_cons, List.nodup_cons] at hnd
    simp only [List.foldl_cons]
    rcases List.mem_cons.mp hmem with heq | hrest
    · cases heq
      rw [lookupVar_foldl_notMem _ _ _ hnd.1, lookupVar_setVar_self]
    · exact ih _ x v hnd.2 hrest

/-- `zip` truncates to the shorter list. -/
theorem zip_take_len :
    ∀ (ps : List String) (as : List SVal),
      ps.zip as = ps.zip (as.take ps.length) := by
  intro ps
  induction ps with
  | nil => intro as; simp
  | cons p ps ih =>
    intro as
    cases as with
    | nil => simp
    | cons a as => simp [List.zip_cons_cons, ih as]

/-- The keys of a zipped frame are the params that got an argument. -/
theorem map_fst_zip_take :
    ∀ (ps : List String) (as : List SVal),
      (ps.zip as).map Prod.fst = ps.take as.length := by
  intro ps
  induction ps with
  | nil => intro as; simp
  | cons p ps ih =>
    intro as
    cases as with
    | nil => simp
    | cons a as => simp [List.zip_cons_cons, ih as]
/-- C4 counterexample: invoking a one-parameter closure with two argument
values is not a fatal arity error — `((lambda (x) x) 1 2)` evaluates
normally to `1`, the extra argument silently dropped; and invoking a
two-parameter closure with one argument also proceeds,
`((lambda (x y) 7) 1)` evaluating its body normally. -/
theorem C4_no_arity_error :
    evalF 10 c4progExtra 0 emptyGlobal
      = some (.ok (.int 1, ⟨emptyGlobal.frames ++ [⟨[("x", .int 1)], some 0⟩]⟩)) ∧
    evalF 10 c4progMissing 0 emptyGlobal
      = some (.ok (.int 7, ⟨emptyGlobal.frames ++ [⟨[("x", .int 1)], some 0⟩]⟩)) :=
  ⟨rfl, rfl⟩

/-- C4 (amended): a closure invocation never checks arity: the call frame
is `dict(zip(parms, args))`, so extra arguments beyond the parameter count
are dropped (second conjunct), parameters beyond the argument count are
left unbound (third conjunct), and with exactly matching counts every
parameter is bound to its positional argument (first conjunct). -/
theorem C4_zip_binding :
    (∀ (params : List String) (args : List SVal)
        (h : params.length = args.length) (hnd : params.Nodup)
        (i : Nat) (hi : i < params.length),
        lookupVar (bindPairs (params.zip args)) params[i]
          = some (args.get ⟨i, h ▸ hi⟩)) ∧
    (∀ (params : List String) (args : List SVal),
        bindPairs (params.zip args)
          = bindPairs (params.zip (args.take params.length))) ∧
    (∀ (params : List String) (args : List SVal) (i : Nat),
        params.Nodup → args.length ≤ i → (hi : i < params.length) →
        lookupVar (bindPairs (params.zip args)) params[i] = Option.none) := by
  refine ⟨?_, ?_, ?_⟩
  · intro params args h hnd i hi
    have hkeys : (params.zip args).map Prod.fst = params :=
      List.map_fst_zip params args (le_of_eq h)
    have hz : i < (params.zip args).length := by
      simp [List.length_zip, ← h, hi]
    have hmem : (params[i], args.get ⟨i, h ▸ hi⟩) ∈ params.zip args := by
      have hm := List.getElem_mem hz
      rw [List.getElem_zip] at hm
      simpa [List.get_eq_getElem] using hm
    exact lookupVar_foldl_mem _ _ _ _ (by rw [hkeys]; exact hnd) hmem
  · intro params args
    rw [bindPairs, bindPairs, ← zip_take_len]
  · intro params args i hnd hargs hi
    have hkeys : (params.zip args).map Prod.fst = params.take args.length :=
      map_fst_zip_take params args
    have hnot : params[i] ∉ params.take args.length := by
      intro hmem
      obtain ⟨j, hj, hji⟩ := List.mem_iff_getElem.mp hmem
      have hjlt : j < args.length := lt_of_lt_of_le hj (by simp)
      have hjp : j < params.length := by
        have := hj
        simp only [List.length_take, lt_min_iff] at this
        exact this.2
      rw [List.getElem_take] at hji
      have : j = i := (List.Nodup.getElem_inj_iff hnd).mp hji
      omega
    have := lookupVar_foldl_notMem (params.zip args) [] params[i]
      (by rw [hkeys]; exact hnot)
    rw [bindPairs, this]
    rfl

/-- Witness for C4's amended theorem: the three conjuncts at concrete
parameter and argument lists. -/
theorem C4_zip_binding_witness :
    lookupVar (bindPairs (["x", "y"].zip [SVal.int 1, SVal.int 2])) "x"
      = some (.int 1) ∧
    bindPairs (["x"].zip [SVal.int 1, SVal.int 2])
      = bindPairs (["x"].zip ([SVal.int 1, SVal.int 2].take 1)) ∧
    lookupVar (bindPairs (["x", "y"].zip [SVal.int 1])) "y" = Option.none := by
  refine ⟨?_, C4_zip_binding.2.1 ["x"] [SVal.int 1, SVal.int 2], ?_⟩
  · exact C4_zip_binding.1 ["x", "y"] [SVal.int 1, SVal.int 2] rfl
      (by decide) 0 (by decide)
  · exact C4_zip_binding.2.2 ["x", "y"] [SVal.int 1] 1 (by decide)
      (by decide) (by decide)
/-- C7: `(if test conseq alt)` evaluates exactly one branch. Concretely
`(if 1 10 (undefined-symbol))` evaluates to `10` with no UnboundError;
in general, once the test evaluates truthy the result does not depend on
the alternative expression at all, and once it evaluates falsy the result
does not depend on the consequent. -/
theorem C7_if_short_circuit :
    evalF 10 c7prog 0 emptyGlobal = some (.ok (.int 10, emptyGlobal)) ∧
    (∀ f t c a a' env st v st',
        evalF f t env st = some (.ok (v, st')) → truthy v = true →
        evalF (f + 1) (.list [.sym "if", t, c, a]) env st
          = evalF (f + 1) (.list [.sym "if", t, c, a']) env st) ∧
    (∀ f t c c' a env st v st',
        evalF f t env st = some (.ok (v, st')) → truthy v = false →
        evalF (f + 1) (.list [.sym "if", t, c, a]) env st
          = evalF (f + 1) (.list [.sym "if", t, c', a]) env st) := by
  refine ⟨rfl, ?_, ?_⟩
  · intro f t c a a' env st v st' h ht
    simp only [evalF, h, ht, if_true]
  · intro f t c c' a env st v st' h ht
    simp [evalF, h, ht]

/-- Witness for C7: the general irrelevance conjuncts instantiated — with
a truthy test the alternative can be swapped, with a falsy test the
consequent can be swapped. -/
theorem C7_if_short_circuit_witness :
    evalF 2 (.list [.sym "if", .int 1, .int 10, .sym "boom"]) 0 emptyGlobal
      = evalF 2 (.list [.sym "if", .int 1, .int 10, .sym "crash"]) 0 emptyGlobal ∧
    evalF 2 (.list [.sym "if", .int 0, .sym "boom", .int 20]) 0 emptyGlobal
      = evalF 2 (.list [.sym "if", .int 0, .sym "crash", .int 20]) 0 emptyGlobal :=
  ⟨C7_if_short_circuit.2.1 1 (.int 1) (.int 10) (.sym "boom") (.sym "crash")
      0 emptyGlobal (.int 1) emptyGlobal rfl rfl,
   C7_if_short_circuit.2.2 1 (.int 0) (.sym "boom") (.sym "crash") (.int 20)
      0 emptyGlobal (.int 0) emptyGlobal rfl rfl⟩

/-- C8 counterexample: the claim says the integer `0` is truthy and takes
the consequent, but the host truthiness used by `if eval(test, env):` is
Python `bool`, under which `0` is falsy: `(if 0 10 20)` evaluates to `20`,
not `10`. -/
theorem C8_zero_not_truthy :
    evalF 10 (.list [.sym "if", .int 0, .int 10, .int 20]) 0 emptyGlobal
      = some (.ok (.int 20, emptyGlobal)) ∧
    evalF 10 (.list [.sym "if", .float "0.0", .int 10, .int 20]) 0 emptyGlobal
      = some (.ok (.int 20, emptyGlobal)) :=
  ⟨rfl, rfl⟩

/-- C8 (amended): the evaluated test is fed to host truthiness (`bool`):
the untaken branch is the one `truthy` rejects, and `truthy` is false
exactly on `False`, numeric zero (including `0` and `0.0`), the empty
list, the empty string and `None` — not merely on the empty list and
`False` as the claim stated. -/
theorem C8_truthiness :
    (∀ f t c a env st v st',
        evalF f t env st = some (.ok (v, st')) →
        evalF (f + 1) (.list [.sym "if", t, c, a]) env st
          = evalF f (if truthy v then c else a) env st') ∧
    (∀ n : Int, truthy (.int n) = decide (n ≠ 0)) ∧
    truthy (.float "0.0") = false ∧
    truthy (.float "1.5") = true ∧
    truthy (.list []) = false ∧
    (∀ v vs, truthy (.list (v :: vs)) = true) ∧
    truthy (.bool false) = false ∧
    truthy (.bool true) = true ∧
    truthy .none = false ∧
    truthy (.sym "") = false ∧
    truthy (.sym "a") = true := by
  refine ⟨?_, ?_, rfl, rfl, rfl, ?_, rfl, rfl, rfl, rfl, rfl⟩
  · intro f t c a env st v st' h
    cases htr : truthy v <;> simp [evalF, h, htr]
  · intro n; rfl
  · intro v vs; rfl

/-- Witness for C8's amended theorem: the dispatch conjunct at a concrete
falsy test. -/
theorem C8_truthiness_witness :
    evalF 2 (.list [.sym "if", .int 0, .int 10, .int 20]) 0 emptyGlobal
      = evalF 1 (if truthy (.int 0) then SVal.int 10 else SVal.int 20)
          0 emptyGlobal :=
  C8_truthiness.1 1 (.int 0) (.int 10) (.int 20) 0 emptyGlobal
    (.int 0) emptyGlobal rfl

/-- C9 counterexample: the claim says applying `cdr` to the empty list is
a fatal indexing error, but `cdr` is the slice `x[1:]`, which on `[]`
returns `[]` without error: `(cdr (quote ()))` evaluates normally. -/
theorem C9_cdr_nil_no_error :
    applyBuiltin "cdr" [.list []] = .ok (.list []) ∧
    evalF 10 (.list [.sym "cdr", .list [.sym "quote", .list []]]) 0 st0
      = some (.ok (.list [], st0)) :=
  ⟨rfl, rfl⟩

/-- C9 (amended): `car` of the empty list is a fatal `IndexError`, but
`cdr` of the empty list returns the empty list (slicing is total); on any
non-empty list `car` returns the first element and `cdr` the list of the
rest. -/
theorem C9_car_cdr :
    applyBuiltin "car" [.list []] = .error .indexError ∧
    applyBuiltin "cdr" [.list []] = .ok (.list []) ∧
    (∀ v vs, applyBuiltin "car" [.list (v :: vs)] = .ok v) ∧
    (∀ v vs, applyBuiltin "cdr" [.list (v :: vs)] = .ok (.list vs)) ∧
    evalF 10 (.list [.sym "car",
        .list [.sym "quote", .list [.int 1, .int 2, .int 3]]]) 0 st0
      = some (.ok (.int 1, st0)) ∧
    evalF 10 (.list [.sym "cdr",
        .list [.sym "quote", .list [.int 1, .int 2, .int 3]]]) 0 st0
      = some (.ok (.list [.int 2, .int 3], st0)) ∧
    evalF 10 (.list [.sym "car", .list [.sym "quote", .list []]]) 0 st0
      = some (.error .indexError) :=
  ⟨rfl, rfl, fun v vs => rfl, fun v vs => rfl, rfl, rfl, rfl⟩

/-- C10: the atom classifier is total and three-valued: every string
becomes an int, a float (its own token, in the model's representation) or
a symbol — `int` is tried first, then `float`, and the fallback is a
symbol, so no input raises. `inf` and `nan` parse as floats, not symbols;
the empty string is a symbol; a pure-digit token is an int even though it
would also parse as a float. -/
theorem C10_atom_total :
    (∀ s : String,
        (∃ n, atomF s = .int n) ∨ atomF s = .float s ∨ atomF s = .sym s) ∧
    atomF "inf" = .float "inf" ∧
    atomF "nan" = .float "nan" ∧
    atomF "Infinity" = .float "Infinity" ∧
    atomF "-inf" = .float "-inf" ∧
    atomF "" = .sym "" ∧
    atomF "42" = .int 42 ∧
    atomF "-7" = .int (-7) ∧
    atomF "2.5" = .float "2.5" ∧
    atomF "-3e2" = .float "-3e2" ∧
    atomF "foo" = .sym "foo" ∧
    isFloatTok "42" = true := by
  refine ⟨?_, rfl, rfl, rfl, rfl, rfl, rfl, rfl, rfl, rfl, rfl, rfl⟩
  intro s
  unfold atomF
  split_ifs with h1 h2
  · exact Or.inl ⟨intValTok s, rfl⟩
  · exact Or.inr (Or.inl rfl)
  · exact Or.inr (Or.inr rfl)
/-- The `SyntaxError('unexpected EOF while reading')` can only arise at the
very top of `read_expr` on an empty token list: the list loop always peeks
(`tokens[0]`) before recursing, so recursive calls see nonempty input. -/
theorem read_noEOF :
    ∀ f, (∀ ts, ts ≠ [] → readExprF f ts ≠ some (.error .syntaxEOF)) ∧
         (∀ ts, readListF f ts ≠ some (.error .syntaxEOF)) := by
  intro f
  induction f with
  | zero =>
    exact ⟨fun ts _ => by simp [readExprF], fun ts => by simp [readListF]⟩
  | succ f ih =>
    constructor
    · intro ts hne
      match ts with
      | t :: ts' =>
        simp only [readExprF]
        by_cases h1 : t = "("
        · simp only [h1, if_true]
          cases hL : readListF f ts' with
          | none => simp
          | some r =>
            cases r with
            | error e =>
              have := ih.2 ts'
              rw [hL] at this
              simp_all
            | ok p => simp
        · by_cases h2 : t = ")" <;> simp [h1, h2]
    · intro ts
      match ts with
      | [] => simp [readListF]
      | t :: ts' =>
        simp only [readListF]
        by_cases h2 : t = ")"
        · simp [h2]
        · simp only [h2, if_false]
          cases hE : readExprF f (t :: ts') with
          | none => simp
          | some r =>
            cases r with
            | error e =>
              have := ih.1 (t :: ts') (by simp)
              rw [hE] at this
              simp_all
            | ok p =>
              obtain ⟨e, rest⟩ := p
              simp only
              cases hL : readListF f rest with
              | none => simp
              | some r' =>
                cases r' with
                | error e' =>
                  have := ih.2 rest
                  rw [hL] at this
                  simp_all
                | ok p' => simp

/-- Fuel `2·length + 1` (resp. `+ 2` inside a list) always suffices for the
reader, and a successful read consumes at least one token. -/
theorem read_total :
    ∀ f, (∀ ts : List String, 2 * ts.length + 1 ≤ f →
            readExprF f ts ≠ Option.none ∧
            ∀ e rest, readExprF f ts = some (.ok (e, rest)) →
              rest.length < ts.length) ∧
         (∀ ts : List String, 2 * ts.length + 2 ≤ f →
            readListF f ts ≠ Option.none ∧
            ∀ es rest, readListF f ts = some (.ok (es, rest)) →
              rest.length < ts.length) := by
  intro f
  induction f with
  | zero => exact ⟨fun ts h => by omega, fun ts h => by omega⟩
  | succ f ih =>
    constructor
    · intro ts hf
      match ts with
      | [] => refine ⟨by simp [readExprF], ?_⟩; simp [readExprF]
      | t :: ts' =>
        simp only [readExprF]
        by_cases h1 : t = "("
        · simp only [h1, if_true]
          have hfl : 2 * ts'.length + 2 ≤ f := by
            simp only [List.length_cons] at hf; omega
          obtain ⟨hnn, hcons⟩ := ih.2 ts' hfl
          cases hL : readListF f ts' with
          | none => exact absurd hL hnn
          | some r =>
            cases r with
            | error e => simp
            | ok p =>
              obtain ⟨es, rest⟩ := p
              have := hcons es rest hL
              constructor
              · simp
              · intro e' rest' heq
                simp only [Option.some.injEq, Except.ok.injEq, Prod.mk.injEq] at heq
                obtain ⟨_, h2⟩ := heq
                subst h2
                simp only [List.length_cons]
                omega
        · by_cases h2 : t = ")"
          · refine ⟨by simp [h1, h2], ?_⟩
            simp [h1, h2]
          · refine ⟨by simp [h1, h2], ?_⟩
            simp only [h1, h2, if_false]
            intro e rest heq
            simp only [Option.some.injEq, Except.ok.injEq, Prod.mk.injEq] at heq
            obtain ⟨_, h3⟩ := heq
            subst h3
            simp
    · intro ts hf
      match ts with
      | [] => refine ⟨by simp [readListF], ?_⟩; simp [readListF]
      | t :: ts' =>
        simp only [readListF]
        by_cases h2 : t = ")"
        · refine ⟨by simp [h2], ?_⟩
          simp only [h2, if_true]
          intro es rest heq
          simp only [Option.some.injEq, Except.ok.injEq, Prod.mk.injEq] at heq
          obtain ⟨_, h3⟩ := heq
          subst h3
          simp
        · simp only [h2, if_false]
          have hfe : 2 * (t :: ts').length + 1 ≤ f := by
            simp only [List.length_cons] at hf ⊢; omega
          obtain ⟨hnn, hcons⟩ := ih.1 (t :: ts') hfe
          cases hE : readExprF f (t :: ts') with
          | none => exact absurd hE hnn
          | some r =>
            cases r with
            | error e => simp
            | ok p =>
              obtain ⟨e, rest⟩ := p
              have hlt := hcons e rest hE
              have hfl : 2 * rest.length + 2 ≤ f := by
                simp only [List.length_cons] at hlt hfe; omega
              obtain ⟨hnn', hcons'⟩ := ih.2 rest hfl
              cases hL : readListF f rest with
              | none => exact absurd hL hnn'
              | some r' =>
                cases r' with
                | error e' => simp [hL]
                | ok p' =>
                  obtain ⟨es, rest'⟩ := p'
                  have hlt' := hcons' es rest' hL
                  simp only [hL]
                  constructor
                  · simp
                  · intro es'' rest'' heq
                    simp only [Option.some.injEq, Except.ok.injEq,
                      Prod.mk.injEq] at heq
                    obtain ⟨_, h3⟩ := heq
                    subst h3
                    simp only [List.length_cons] at hlt ⊢
                    omega
/-- Rewriting `readExpr` by the underlying fuel computation. -/
theorem readExpr_eq {ts : List String} {r : Except Err (SVal × List String)}
    (h : readExprF (2 * ts.length + 1) ts = some r) : readExpr ts = r := by
  simp [readExpr, h]

/-- C5 counterexample: a token sequence that opens a `(` and is exhausted
before the matching `)` fails with a host `IndexError` — the list loop
peeks `tokens[0]` on an empty list — not with a SyntaxError-kind
condition as claimed: `IndexError` is a different condition from both
`SyntaxError` kinds the reader can raise. -/
theorem C5_eof_is_indexError :
    readExpr ["("] = .error .indexError ∧
    readExpr ["(", "1"] = .error .indexError ∧
    Err.indexError ≠ Err.syntaxEOF ∧
    Err.indexError ≠ Err.unexpectedClose :=
  ⟨rfl, rfl, by decide, by decide⟩

/-- C5 (amended): exhaustion *inside* an open list is an `IndexError`
(the loop peeks `tokens[0]` on the empty remainder), and the
`SyntaxError` EOF condition can only occur when `read_expr` is called on
an already-empty token sequence; a leading `)` does fail immediately with
the SyntaxError-kind `unexpected )` condition, as claimed. -/
theorem C5_reader_error_kinds :
    (∀ ts : List String, ts ≠ [] → readExpr ts ≠ .error .syntaxEOF) ∧
    readExpr ["("] = .error .indexError ∧
    readExpr ["(", "1", "(", "2", ")"] = .error .indexError ∧
    (∀ ts, readExpr (")" :: ts) = .error .unexpectedClose) ∧
    readExpr [] = .error .syntaxEOF := by
  refine ⟨?_, rfl, rfl, ?_, rfl⟩
  · intro ts hne
    obtain ⟨hnn, -⟩ := (read_total (2 * ts.length + 1)).1 ts (le_refl _)
    cases h : readExprF (2 * ts.length + 1) ts with
    | none => exact absurd h hnn
    | some r =>
      rw [readExpr_eq h]
      have := (read_noEOF (2 * ts.length + 1)).1 ts hne
      rw [h] at this
      intro hr
      exact this (by rw [hr])
  · intro ts
    rfl

/-- Witness for C5's amended theorem: the no-spurious-EOF conjunct at a
concrete nonempty token list. -/
theorem C5_reader_error_kinds_witness :
    readExpr ["(", "1"] ≠ .error .syntaxEOF :=
  C5_reader_error_kinds.1 ["(", "1"] (by simp)
/-! ### Decimal printing of ints round-trips through the reader -/

theorem digitVal_digitChar : ∀ d, d < 10 → digitVal (digitChar d) = d := by
  decide

theorem isDigit_digitChar : ∀ d, d < 10 → (digitChar d).isDigit = true := by
  decide

theorem isDigit_bounds {c : Char} (h : c.isDigit = true) :
    48 ≤ c.toNat ∧ c.toNat ≤ 57 := by
  simp only [Char.isDigit, Bool.and_eq_true, decide_eq_true_eq] at h
  exact ⟨h.1, h.2⟩

theorem isDigit_not_sign {c : Char} (h : c.isDigit = true) :
    c ≠ '-' ∧ c ≠ '+' := by
  constructor <;> rintro rfl <;> simp at h

theorem isDigit_notDelim {c : Char} (h : c.isDigit = true) :
    notDelim c = true := by
  obtain ⟨h1, h2⟩ := isDigit_bounds h
  simp only [notDelim, decide_eq_true_eq]
  push_neg
  refine ⟨?_, ?_, ?_⟩
  · rintro rfl; exact absurd h1 (by decide)
  · rintro rfl; exact absurd h1 (by decide)
  · intro hw
    simp only [Char.isWhitespace, Bool.or_eq_true, decide_eq_true_eq] at hw
    rcases hw with ((rfl | rfl) | rfl) | rfl <;> exact absurd h1 (by decide)

theorem mk_isEmpty_cons (c : Char) (cs : List Char) :
    (String.mk (c :: cs)).isEmpty = false := by
  rw [Bool.eq_false_iff]
  intro h
  have hs := (String.isEmpty_iff _).mp h
  have := congrArg String.data hs
  simp at this

theorem digitsVal_append (l : List Char) (c : Char) :
    digitsVal (l ++ [c]) = 10 * digitsVal l + digitVal c := by
  simp [digitsVal, List.foldl_append]

theorem natDigitsF_spec :
    ∀ f n, n < f →
      natDigitsF f n ≠ [] ∧ (natDigitsF f n).all Char.isDigit = true ∧
        digitsVal (natDigitsF f n) = n := by
  intro f
  induction f with
  | zero => intro n h; omega
  | succ f ih =>
    intro n hn
    by_cases h10 : n < 10
    · have : natDigitsF (f + 1) n = [digitChar n] := by
        simp [natDigitsF, h10]
      rw [this]
      refine ⟨by simp, by simp [isDigit_digitChar n h10], ?_⟩
      simp [digitsVal, digitVal_digitChar n h10]
    · have hrec : natDigitsF (f + 1) n
          = natDigitsF f (n / 10) ++ [digitChar (n % 10)] := by
        simp [natDigitsF, h10]
      have hdiv : n / 10 < f := by
        have := Nat.div_lt_self (by omega : 0 < n) (by omega : 1 < 10)
        omega
      obtain ⟨hne, hall, hval⟩ := ih (n / 10) hdiv
      rw [hrec]
      have hm : n % 10 < 10 := Nat.mod_lt _ (by omega)
      refine ⟨by simp, ?_, ?_⟩
      · simp only [List.all_append, Bool.and_eq_true]
        exact ⟨hall, by simp [isDigit_digitChar _ hm]⟩
      · rw [digitsVal_append, hval, digitVal_digitChar _ hm]
        omega

theorem natDigits_spec (n : Nat) :
    natDigits n ≠ [] ∧ (natDigits n).all Char.isDigit = true ∧
      digitsVal (natDigits n) = n :=
  natDigitsF_spec (n + 1) n (Nat.lt_succ_self n)

theorem data_mk (l : List Char) : (String.mk l).data = l := rfl

/-- The printed form of an int is a clean token, is classified back as an
int, and parses back to the same value. -/
theorem intRepr_spec (n : Int) :
    isIntTok (intRepr n) = true ∧ intValTok (intRepr n) = n ∧
      cleanTok (intRepr n) = true := by
  cases n with
  | ofNat m =>
    obtain ⟨hne, hall, hval⟩ := natDigits_spec m
    obtain ⟨c, cs, hcons⟩ := List.exists_cons_of_ne_nil hne
    have hcd : c.isDigit = true := by
      rw [hcons] at hall
      simp only [List.all_cons, Bool.and_eq_true] at hall
      exact hall.1
    have hsign := isDigit_not_sign hcd
    have hstrip : stripSignL (natDigits m) = natDigits m := by
      rw [hcons]
      simp [stripSignL, hsign.1, hsign.2]
    refine ⟨?_, ?_, ?_⟩
    · simp only [isIntTok, intRepr, data_mk, hstrip, isDigitsL,
        Bool.and_eq_true]
      exact ⟨by simp [hne], hall⟩
    · simp only [intValTok, intRepr, data_mk, hcons]
      rw [if_neg hsign.1, if_neg hsign.2, ← hcons, hval]
      rfl
    · simp only [cleanTok, intRepr, data_mk, Bool.and_eq_true]
      refine ⟨by simp only [decide_eq_true_eq]; rw [hcons]; simp [mk_isEmpty_cons], ?_⟩
      rw [List.all_eq_true] at hall ⊢
      exact fun c hc => isDigit_notDelim (hall c hc)
  | negSucc m =>
    obtain ⟨hne, hall, hval⟩ := natDigits_spec (m + 1)
    have hstrip : stripSignL ('-' :: natDigits (m + 1)) = natDigits (m + 1) := by
      simp [stripSignL]
    refine ⟨?_, ?_, ?_⟩
    · simp only [isIntTok, intRepr, data_mk, hstrip, isDigitsL,
        Bool.and_eq_true]
      exact ⟨by simp [hne], hall⟩
    · simp only [intValTok, intRepr, data_mk, if_pos rfl, hval]
      simp [Int.negSucc_eq]
    · simp only [cleanTok, intRepr, data_mk, Bool.and_eq_true]
      refine ⟨by simp [mk_isEmpty_cons], ?_⟩
      rw [List.all_eq_true]
      intro c hc
      rcases List.mem_cons.mp hc with rfl | hc'
      · decide
      · exact isDigit_notDelim ((List.all_eq_true.mp hall) c hc')
/-! ### Atoms print to clean tokens that classify back to themselves -/

theorem cleanTok_data_ne_nil {s : String} (h : cleanTok s = true) :
    s.data ≠ [] := by
  intro hd
  have hs : s = "" := by
    have : s = String.mk s.data := rfl
    rw [this, hd]
  rw [hs] at h
  exact absurd h (by decide)

theorem cleanTok_all_notDelim {s : String} (h : cleanTok s = true) :
    s.data.all notDelim = true := by
  simp only [cleanTok, Bool.and_eq_true] at h
  exact h.2

theorem cleanTok_ne_paren {s : String} (h : cleanTok s = true) :
    s ≠ "(" ∧ s ≠ ")" := by
  constructor <;> rintro rfl <;> exact absurd h (by decide)

theorem toStr_int_spec (n : Int) :
    atomF (toStr (.int n)) = .int n ∧ cleanTok (toStr (.int n)) = true := by
  obtain ⟨h1, h2, h3⟩ := intRepr_spec n
  constructor
  · show atomF (intRepr n) = .int n
    simp [atomF, h1, h2]
  · exact h3

theorem toStr_float_spec (t : String) (h : wfB (.float t) = true) :
    atomF (toStr (.float t)) = .float t ∧ cleanTok (toStr (.float t)) = true := by
  simp only [wfB, Bool.and_eq_true, Bool.not_eq_true'] at h
  obtain ⟨⟨hc, hf⟩, hni⟩ := h
  refine ⟨?_, hc⟩
  show atomF t = .float t
  rw [atomF, if_neg (by rw [hni]; exact Bool.false_ne_true), if_pos hf]

theorem toStr_sym_spec (s : String) (h : wfB (.sym s) = true) :
    atomF (toStr (.sym s)) = .sym s ∧ cleanTok (toStr (.sym s)) = true := by
  simp only [wfB, Bool.and_eq_true, Bool.not_eq_true'] at h
  obtain ⟨⟨hc, hni⟩, hnf⟩ := h
  refine ⟨?_, hc⟩
  show atomF s = .sym s
  rw [atomF, if_neg (by rw [hni]; exact Bool.false_ne_true),
    if_neg (by rw [hnf]; exact Bool.false_ne_true)]

/-! ### The tokenizer splits a printed tree into its token list -/

theorem tok_run :
    ∀ (run : List Char), run.all notDelim = true → ∀ rest acc,
      tokenizeChars (run ++ rest) acc = tokenizeChars rest (acc ++ run) := by
  intro run
  induction run with
  | nil => intro _ rest acc; simp
  | cons c run ih =>
    intro hall rest acc
    simp only [List.all_cons, Bool.and_eq_true] at hall
    obtain ⟨hc, hrun⟩ := hall
    simp only [notDelim, decide_eq_true_eq] at hc
    push_neg at hc
    obtain ⟨h1, h2, h3⟩ := hc
    simp only [List.cons_append, tokenizeChars, if_neg h1, if_neg h2, if_neg h3]
    exact (ih hrun rest (acc ++ [c])).trans (by simp)

theorem whitespace_not_paren {c : Char} (h : c.isWhitespace = true) :
    c ≠ '(' ∧ c ≠ ')' := by
  constructor <;> rintro rfl <;> exact absurd h (by decide)

theorem tok_flush_delim (c : Char) (cs : List Char) (a : Char) (as : List Char)
    (hc : notDelim c = false) :
    tokenizeChars (c :: cs) (a :: as)
      = String.mk (a :: as) :: tokenizeChars (c :: cs) [] := by
  have hd : c = '(' ∨ c = ')' ∨ c.isWhitespace = true := by
    have := hc
    simp only [notDelim, decide_eq_false_iff_not, not_not] at this
    exact this
  rcases hd with rfl | rfl | hw
  · simp [tokenizeChars]
  · simp [tokenizeChars]
  · obtain ⟨h1, h2⟩ := whitespace_not_paren hw
    simp [tokenizeChars, h1, h2, hw]

/-- Reading off one clean token: the token's characters accumulate and are
flushed by the following delimiter (or the end of input). -/
theorem tok_atom (tok : String) (h : cleanTok tok = true) :
    ∀ rest : List Char,
      (rest = [] ∨ ∃ c cs, rest = c :: cs ∧ notDelim c = false) →
      tokenizeChars (tok.data ++ rest) [] = tok :: tokenizeChars rest [] := by
  intro rest hrest
  rw [tok_run tok.data (cleanTok_all_notDelim h) rest []]
  simp only [List.nil_append]
  obtain ⟨d, ds, hd⟩ := List.exists_cons_of_ne_nil (cleanTok_data_ne_nil h)
  have hmk : String.mk tok.data = tok := rfl
  rcases hrest with rfl | ⟨c, cs, rfl, hc⟩
  · rw [hd]
    show [String.mk (d :: ds)] = [tok]
    rw [← hd, hmk]
  · rw [hd, tok_flush_delim c cs d ds hc, ← hd, hmk]
theorem data_append (a b : String) : (a ++ b).data = a.data ++ b.data := rfl

mutual
/-- Tokenizing the printed form of a well-formed tree, followed by a
delimiter or end of input, yields the tree's token list followed by the
tokens of the remainder. -/
theorem tokenize_toStr_expr (e : SVal) (hwf : wfB e = true) :
    ∀ rest : List Char,
      (rest = [] ∨ ∃ c cs, rest = c :: cs ∧ notDelim c = false) →
      tokenizeChars ((toStr e).data ++ rest) []
        = toks e ++ tokenizeChars rest [] := by
  cases e with
  | int n =>
    intro rest hrest
    exact tok_atom _ (toStr_int_spec n).2 rest hrest
  | float t =>
    intro rest hrest
    exact tok_atom _ (toStr_float_spec t hwf).2 rest hrest
  | sym s =>
    intro rest hrest
    exact tok_atom _ (toStr_sym_spec s hwf).2 rest hrest
  | bool b => intro rest hrest; simp [wfB] at hwf
  | none => intro rest hrest; simp [wfB] at hwf
  | closure p b env => intro rest hrest; simp [wfB] at hwf
  | builtin name => intro rest hrest; simp [wfB] at hwf
  | list es =>
    intro rest hrest
    have hwf' : wfListB es = true := hwf
    have hdata : (toStr (.list es)).data
        = '(' :: ((toStrList es).data ++ [')']) := rfl
    rw [hdata]
    have hassoc : ('(' :: ((toStrList es).data ++ [')'])) ++ rest
        = '(' :: ((toStrList es).data ++ (')' :: rest)) := by
      simp [List.append_assoc]
    rw [hassoc]
    have hstep : tokenizeChars
        ('(' :: ((toStrList es).data ++ (')' :: rest))) []
        = "(" :: tokenizeChars ((toStrList es).data ++ (')' :: rest)) [] := rfl
    rw [hstep, tokenize_toStr_list es hwf' rest]
    have : toks (.list es) = "(" :: (toksList es ++ [")"]) := rfl
    rw [this]
    simp [List.append_assoc]

theorem tokenize_toStr_list (es : List SVal) (hwf : wfListB es = true) :
    ∀ rest : List Char,
      tokenizeChars ((toStrList es).data ++ (')' :: rest)) []
        = toksList es ++ ")" :: tokenizeChars rest [] := by
  match es with
  | [] =>
    intro rest
    rfl
  | [e] =>
    intro rest
    have hw : wfB e = true := by
      have : wfListB [e] = (wfB e && wfListB []) := rfl
      rw [this] at hwf
      exact (Bool.and_eq_true _ _).mp hwf |>.1
    have hts : toStrList [e] = toStr e := rfl
    rw [hts]
    have := tokenize_toStr_expr e hw (')' :: rest)
      (Or.inr ⟨')', rest, rfl, by decide⟩)
    rw [this]
    have hcl : tokenizeChars (')' :: rest) [] = ")" :: tokenizeChars rest [] := rfl
    rw [hcl]
    have : toksList [e] = toks e ++ [] := rfl
    rw [this]
    simp
  | e :: e' :: es' =>
    intro rest
    have hw : wfB e = true ∧ wfListB (e' :: es') = true := by
      have : wfListB (e :: e' :: es') = (wfB e && wfListB (e' :: es')) := rfl
      rw [this] at hwf
      exact (Bool.and_eq_true _ _).mp hwf
    have hts : toStrList (e :: e' :: es')
        = toStr e ++ " " ++ toStrList (e' :: es') := rfl
    rw [hts]
    have hdata : (toStr e ++ " " ++ toStrList (e' :: es')).data
        = (toStr e).data ++ (' ' :: (toStrList (e' :: es')).data) := by
      rw [data_append, data_append]
      simp
    rw [hdata]
    have hassoc : ((toStr e).data ++ (' ' :: (toStrList (e' :: es')).data))
          ++ (')' :: rest)
        = (toStr e).data
          ++ (' ' :: ((toStrList (e' :: es')).data ++ (')' :: rest))) := by
      simp [List.append_assoc]
    rw [hassoc]
    rw [tokenize_toStr_expr e hw.1
      (' ' :: ((toStrList (e' :: es')).data ++ (')' :: rest)))
      (Or.inr ⟨' ', _, rfl, by decide⟩)]
    have hws : tokenizeChars
        (' ' :: ((toStrList (e' :: es')).data ++ (')' :: rest))) []
        = tokenizeChars ((toStrList (e' :: es')).data ++ (')' :: rest)) [] := rfl
    rw [hws, tokenize_toStr_list (e' :: es') hw.2 rest]
    have : toksList (e :: e' :: es') = toks e ++ toksList (e' :: es') := rfl
    rw [this]
    simp [List.append_assoc]
end
theorem toks_ne_nil (e : SVal) : toks e ≠ [] := by
  cases e <;> simp [toks]

theorem toks_head_ne_close (e : SVal) (hwf : wfB e = true) :
    ∀ t ts', toks e = t :: ts' → t ≠ ")" := by
  intro t ts' hte
  cases e with
  | int n =>
    have : toks (.int n) = [toStr (.int n)] := rfl
    rw [this] at hte
    cases hte
    exact (cleanTok_ne_paren (toStr_int_spec n).2).2
  | float ft =>
    have : toks (.float ft) = [toStr (.float ft)] := rfl
    rw [this] at hte
    cases hte
    exact (cleanTok_ne_paren (toStr_float_spec ft hwf).2).2
  | sym s =>
    have : toks (.sym s) = [toStr (.sym s)] := rfl
    rw [this] at hte
    cases hte
    exact (cleanTok_ne_paren (toStr_sym_spec s hwf).2).2
  | list es =>
    have : toks (.list es) = "(" :: (toksList es ++ [")"]) := rfl
    rw [this] at hte
    cases hte
    decide
  | bool b => simp [wfB] at hwf
  | none => simp [wfB] at hwf
  | closure p b env => simp [wfB] at hwf
  | builtin name => simp [wfB] at hwf

mutual
/-- The reader parses the token list of a well-formed tree (followed by
any remainder) back to the tree itself, given fuel at least twice the
token count. -/
theorem read_toks_expr (e : SVal) (hwf : wfB e = true) :
    ∀ (rest : List String) (f : Nat), 2 * (toks e).length + 1 ≤ f →
      readExprF f (toks e ++ rest) = some (.ok (e, rest)) := by
  cases e with
  | list es =>
    intro rest f hf
    cases f with
    | zero => simp [toks] at hf
    | succ g =>
      have hwf' : wfListB es = true := hwf
      have hte : toks (.list es) = "(" :: (toksList es ++ [")"]) := rfl
      rw [hte]
      have hassoc : ("(" :: (toksList es ++ [")"])) ++ rest
          = "(" :: (toksList es ++ ")" :: rest) := by
        simp [List.append_assoc]
      rw [hassoc]
      have hg : 2 * (toksList es).length + 2 ≤ g := by
        rw [hte] at hf
        simp only [List.length_cons, List.length_append,
          List.length_singleton] at hf
        omega
      simp only [readExprF, if_pos rfl]
      rw [read_toks_list es hwf' rest g hg]
      simp
  | int n =>
    intro rest f hf
    cases f with
    | zero => simp [toks] at hf
    | succ g =>
      have hte : toks (.int n) = [toStr (.int n)] := rfl
      have hcl := (toStr_int_spec n).2
      have hpar := cleanTok_ne_paren hcl
      rw [hte]
      simp only [List.cons_append, List.nil_append, readExprF,
        if_neg hpar.1, if_neg hpar.2]
      rw [(toStr_int_spec n).1]
  | float t =>
    intro rest f hf
    cases f with
    | zero => simp [toks] at hf
    | succ g =>
      have hte : toks (.float t) = [toStr (.float t)] := rfl
      have hcl := (toStr_float_spec t hwf).2
      have hpar := cleanTok_ne_paren hcl
      rw [hte]
      simp only [List.cons_append, List.nil_append, readExprF,
        if_neg hpar.1, if_neg hpar.2]
      rw [(toStr_float_spec t hwf).1]
  | sym s =>
    intro rest f hf
    cases f with
    | zero => simp [toks] at hf
    | succ g =>
      have hte : toks (.sym s) = [toStr (.sym s)] := rfl
      have hcl := (toStr_sym_spec s hwf).2
      have hpar := cleanTok_ne_paren hcl
      rw [hte]
      simp only [List.cons_append, List.nil_append, readExprF,
        if_neg hpar.1, if_neg hpar.2]
      rw [(toStr_sym_spec s hwf).1]
  | bool b => simp [wfB] at hwf
  | none => simp [wfB] at hwf
  | closure p b env => simp [wfB] at hwf
  | builtin name => simp [wfB] at hwf

theorem read_toks_list (es : List SVal) (hwf : wfListB es = true) :
    ∀ (rest : List String) (f : Nat), 2 * (toksList es).length + 2 ≤ f →
      readListF f (toksList es ++ ")" :: rest) = some (.ok (es, rest)) := by
  match es with
  | [] =>
    intro rest f hf
    cases f with
    | zero => simp at hf
    | succ g =>
      have : toksList ([] : List SVal) = [] := rfl
      rw [this, List.nil_append]
      simp [readListF]
  | e :: es' =>
    intro rest f hf
    cases f with
    | zero => simp at hf
    | succ g =>
      have hw : wfB e = true ∧ wfListB es' = true := by
        have : wfListB (e :: es') = (wfB e && wfListB es') := rfl
        rw [this] at hwf
        exact (Bool.and_eq_true _ _).mp hwf
      have hts : toksList (e :: es') = toks e ++ toksList es' := rfl
      obtain ⟨t, ts', hte⟩ := List.exists_cons_of_ne_nil (toks_ne_nil e)
      have hLe : 1 ≤ (toks e).length := by
        rw [hte]; simp
      have hlen : 2 * (toksList (e :: es')).length + 2
          = 2 * (toks e).length + 2 * (toksList es').length + 2 := by
        rw [hts]; simp [List.length_append]; ring
      have hg1 : 2 * (toks e).length + 1 ≤ g := by omega
      have hg2 : 2 * (toksList es').length + 2 ≤ g := by omega
      have hsplit : toksList (e :: es') ++ ")" :: rest
          = t :: (ts' ++ (toksList es' ++ ")" :: rest)) := by
        rw [hts, hte]
        simp [List.append_assoc]
      rw [hsplit]
      simp only [readListF, if_neg (toks_head_ne_close e hw.1 t ts' hte)]
      have hre : readExprF g (t :: (ts' ++ (toksList es' ++ ")" :: rest)))
          = some (.ok (e, toksList es' ++ ")" :: rest)) := by
        have := read_toks_expr e hw.1 (toksList es' ++ ")" :: rest) g hg1
        rw [hte] at this
        simpa [List.append_assoc] using this
      rw [hre]
      simp [read_toks_list es' hw.2 rest g hg2]
end
/-- C6: the printer is a left-inverse-able rendering: for every
reader-producible tree (atoms are ints, well-formed float tokens and clean
non-numeric symbols; nodes are nested lists), re-reading the printed text
with `parse` yields the same tree. -/
theorem C6_roundtrip : ∀ e : SVal, wfB e = true → parse (toStr e) = .ok e := by
  intro e hwf
  have htok : tokenize (toStr e) = toks e := by
    have h := tokenize_toStr_expr e hwf [] (Or.inl rfl)
    simpa [tokenize, tokenizeChars] using h
  have hread : readExprF (2 * (toks e).length + 1) (toks e ++ [])
      = some (.ok (e, [])) := read_toks_expr e hwf [] _ (le_refl _)
  rw [List.append_nil] at hread
  simp [parse, htok, readExpr_eq hread]

/-- Witness for C6: a concrete nested tree with an int, a float, a symbol
and nesting round-trips. -/
theorem C6_roundtrip_witness :
    wfB (.list [.int 1, .list [.sym "foo", .float "2.5"], .int (-3)]) = true ∧
    parse (toStr (.list [.int 1, .list [.sym "foo", .float "2.5"], .int (-3)]))
      = .ok (.list [.int 1, .list [.sym "foo", .float "2.5"], .int (-3)]) :=
  ⟨rfl, C6_roundtrip _ rfl⟩
